import Mathlib

/-!
Verification of the RMS-Gate load-balancer core against its design
specification.

This file gives a shallow embedding of the load-balancing engine:
the per-endpoint `Backend` state (sliding latency window, hysteresis
counters, trust coefficient, player set), the time-of-day history store
(`HistoryManager` with 96 fifteen-minute periods), the `health-score`
selection strategy, the health-check transition step, the tracked
connection wrapper, and the Minecraft status probe (`MCPing`) including
its VarInt / packet parsing layer.

Modelling conventions:
* Go `float64` arithmetic is modelled over `ℚ`; `math.Sqrt` is an
  abstract parameter `s : ℚ → ℚ` threaded to the functions that use it
  (only `Jitter` applies it).  All concrete inputs used in theorems keep
  the float computations exact, so `ℚ` agrees with the Go execution.
* Go `int`/`int32`/`int64` values are modelled as `ℤ` (the claims never
  approach overflow), counters that are only incremented as `ℕ`.
* Wall-clock reads (`time.Now`, `getPeriodIndex`) are abstracted as
  explicit parameters: a `Fin 96` period index and integer timestamps.
* Operations that can panic in Go (an out-of-range slice expression)
  return `Option`, with `none` marking the panic.
-/

/-- EMA smoothing factor (`emaAlpha = 0.1` in the source). -/
def emaAlpha : ℚ := 1/10

/-- Minimum samples before historical data is used (`minSamplesForUse = 20`). -/
def minSamplesForUse : ℕ := 20

/-- Per-period statistics (`PeriodStats`).  The `periodIndex`/`periodLabel`
metadata fields are display-only in the source and are omitted here; no
claim concerns them. -/
structure PeriodStats where
  avgLatency : ℚ
  avgJitter : ℚ
  samples : ℕ
deriving DecidableEq

/-- The all-zero `PeriodStats` value a fresh `BackendHistory` is filled with. -/
def zeroStats : PeriodStats := ⟨0, 0, 0⟩

/-- The history store (`HistoryManager`): a map from backend address to the
96-period statistics array, modelled as an association list. -/
structure HistoryManager where
  backends : List (String × (Fin 96 → PeriodStats))

/-- A `HistoryManager` with no data at all. -/
def emptyHistory : HistoryManager := ⟨[]⟩

/-- Replace the binding of key `k` (or add it) in an association list;
models a Go map assignment `m[k] = v`. -/
def setAssoc {α : Type} (l : List (String × α)) (k : String) (v : α) :
    List (String × α) :=
  match l with
  | [] => [(k, v)]
  | (k', v') :: t => if k' = k then (k, v) :: t else (k', v') :: setAssoc t k v

/-- `HistoryManager.GetPeriodStats`: the stats of `addr` at `period`,
`none` when the address has no history (the Go nil pointer). -/
def HistoryManager.GetPeriodStats (hm : HistoryManager) (addr : String)
    (period : Fin 96) : Option PeriodStats :=
  (hm.backends.lookup addr).map (fun f => f period)

/-- `HistoryManager.Record` (part_010 lines 66-98): record one sample at the
given period, creating a fresh all-zero history for a new address, applying
the EMA (first sample assigns verbatim) and bumping the sample counter.
The current wall-clock period is passed explicitly. -/
def HistoryManager.Record (hm : HistoryManager) (period : Fin 96)
    (addr : String) (latency jitter : ℚ) : HistoryManager :=
  let hist := match hm.backends.lookup addr with
    | some f => f
    | none => fun _ => zeroStats
  let st := hist period
  let st2 := if st.samples = 0 then
      { st with avgLatency := latency, avgJitter := jitter }
    else
      { st with avgLatency := emaAlpha * latency + (1 - emaAlpha) * st.avgLatency,
                avgJitter := emaAlpha * jitter + (1 - emaAlpha) * st.avgJitter }
  let st3 := { st2 with samples := st2.samples + 1 }
  ⟨setAssoc hm.backends addr (fun i => if i = period then st3 else hist i)⟩

/-- `HistoryManager.HistoricalScore` (part_010 lines 124-161): the ±score
adjustment from history.  The Go accumulator is a `float64` that only ever
receives the integer summands ±8/±4, so `int(score)` is exact and the model
uses `ℤ` directly. -/
def HistoryManager.HistoricalScore (hm : HistoryManager) (period : Fin 96)
    (addr : String) (currentLatency currentJitter : ℚ) : ℤ :=
  match hm.GetPeriodStats addr period with
  | none => 0
  | some st =>
    if st.samples < minSamplesForUse then 0
    else
      let latPart : ℤ :=
        if st.avgLatency > 0 ∧ currentLatency > 0 then
          let r := currentLatency / st.avgLatency
          if r < 7/10 then 8
          else if r < 85/100 then 4
          else if r > 3/2 then -8
          else if r > 6/5 then -4
          else 0
        else 0
      let jitPart : ℤ :=
        if st.avgJitter > 0 ∧ currentJitter > 0 then
          let r := currentJitter / st.avgJitter
          if r < 7/10 then 4
          else if r > 3/2 then -4
          else 0
        else 0
      latPart + jitPart

/-- Modelled from the spec claim wording only (for comparison with the code):
"r<0.70→+8, r<0.85→+4, r>1.50→−8, r>1.20→−4, else 0" for latency plus
"r<0.70→+4, r>1.50→−4, else 0" for jitter, with r = current/average and no
positivity side-conditions on the ratios. -/
def claimedHistoricalScore (hm : HistoryManager) (period : Fin 96)
    (addr : String) (currentLatency currentJitter : ℚ) : ℤ :=
  match hm.GetPeriodStats addr period with
  | none => 0
  | some st =>
    if st.samples < minSamplesForUse then 0
    else
      let r := currentLatency / st.avgLatency
      let latPart : ℤ :=
        if r < 7/10 then 8
        else if r < 85/100 then 4
        else if r > 3/2 then -8
        else if r > 6/5 then -4
        else 0
      let rj := currentJitter / st.avgJitter
      let jitPart : ℤ :=
        if rj < 7/10 then 4
        else if rj > 3/2 then -4
        else 0
      latPart + jitPart

/-- Per-endpoint state (`Backend`, part_002).  Atomic counters become plain
fields; the player map becomes a `Finset`. -/
structure Backend where
  Addr : String
  MaxConnections : ℤ
  currentConns : ℤ
  failCount : ℤ
  successCount : ℤ
  healthy : Bool
  disabled : Bool
  latencyWindow : List ℤ
  windowSize : ℤ
  trustCoeff : ℤ
  players : Finset String
  lastCheckTime : ℤ
deriving DecidableEq

/-- `NewBackend` (part_002 lines 35-46): empty window, healthy, trust 100. -/
def NewBackend (addr : String) (maxConns windowSize : ℤ) : Backend :=
  { Addr := addr
    MaxConnections := maxConns
    currentConns := 0
    failCount := 0
    successCount := 0
    healthy := true
    disabled := false
    latencyWindow := []
    windowSize := windowSize
    trustCoeff := 100
    players := ∅
    lastCheckTime := 0 }

/-- `Backend.RecordLatency` (part_002 lines 48-57).  The source evicts with
the slice expression `latencyWindow[1:]` whenever `len ≥ windowSize`; on an
empty slice that expression is out of range and panics, which the model
returns as `none`. -/
def Backend.RecordLatency (b : Backend) (ms : ℤ) : Option Backend :=
  if (b.latencyWindow.length : ℤ) ≥ b.windowSize then
    match b.latencyWindow with
    | [] => none
    | _ :: t => some { b with latencyWindow := t ++ [ms] }
  else
    some { b with latencyWindow := b.latencyWindow ++ [ms] }

/-- `Backend.AvgLatency` (part_002 lines 59-71): 0 on an empty window, else
the arithmetic mean. -/
def Backend.AvgLatency (b : Backend) : ℚ :=
  if b.latencyWindow = [] then 0
  else (b.latencyWindow.sum : ℚ) / (b.latencyWindow.length : ℚ)

/-- The quantity under the square root in `Backend.Jitter`: the population
variance of the window. -/
def popVariance (w : List ℤ) : ℚ :=
  let avg : ℚ := (w.sum : ℚ) / (w.length : ℚ)
  (w.map (fun v => ((v : ℚ) - avg) ^ 2)).sum / (w.length : ℚ)

/-- `Backend.Jitter` (part_002 lines 73-93): 0 with fewer than 2 samples,
else `math.Sqrt` of the population variance.  `s` abstracts `math.Sqrt`. -/
def Backend.Jitter (b : Backend) (s : ℚ → ℚ) : ℚ :=
  if b.latencyWindow.length < 2 then 0
  else s (popVariance b.latencyWindow)

/-- `Backend.Trend` (part_002 lines 97-132): percentage change of the recent
quarter of the window against the older three quarters; 0 below 8 samples. -/
def Backend.Trend (b : Backend) : ℚ :=
  let w := b.latencyWindow
  let n := w.length
  if n < 8 then 0
  else
    let r0 := n - n / 4
    let recentStart := if r0 < 1 then 1 else r0
    let older := w.take recentStart
    let recent := w.drop recentStart
    let recentAvg : ℚ := (recent.sum : ℚ) / ((n - recentStart : ℕ) : ℚ)
    let olderAvg : ℚ := (older.sum : ℚ) / (recentStart : ℚ)
    if olderAvg = 0 then 0
    else (recentAvg - olderAvg) / olderAvg * 100

/-- `Backend.IncreaseTrust` (part_002 lines 255-264): +10 percentage points,
saturating at 100, only applied below 100. -/
def Backend.IncreaseTrust (b : Backend) : Backend :=
  if b.trustCoeff < 100 then
    let newVal := b.trustCoeff + 10
    { b with trustCoeff := if newVal > 100 then 100 else newVal }
  else b

/-- `Backend.ResetTrust` (part_002 lines 266-268). -/
def Backend.ResetTrust (b : Backend) : Backend :=
  { b with trustCoeff := 50 }

/-- `Backend.IsAvailable` (part_002 lines 270-281). -/
def Backend.IsAvailable (b : Backend) : Bool :=
  if b.disabled then false
  else if !b.healthy then false
  else if b.MaxConnections > 0 ∧ b.currentConns ≥ b.MaxConnections then false
  else true

/-- `Backend.AddPlayer` (part_002 lines 283-288): unconditional map insert
and unconditional `currentConns` increment. -/
def Backend.AddPlayer (b : Backend) (name : String) : Backend :=
  { b with players := insert name b.players, currentConns := b.currentConns + 1 }

/-- `Backend.RemovePlayer` (part_002 lines 290-300): delete and decrement
only when the name is attached. -/
def Backend.RemovePlayer (b : Backend) (name : String) : Backend :=
  if name ∈ b.players then
    { b with players := b.players.erase name, currentConns := b.currentConns - 1 }
  else b

/-- `Backend.RelativeHealthScore` (part_002 lines 185-249).  The `float64`
score accumulation is over `ℚ`; the final Go `int(score)` truncation acts on
a value already clamped into `[0,100]`, hence equals `Int.floor`. -/
def Backend.RelativeHealthScore (b : Backend) (s : ℚ → ℚ)
    (minLatency minJitter : ℚ) : ℤ :=
  if b.disabled then 0
  else if !b.healthy then 0
  else
    let avg := b.AvgLatency
    let sc1 : ℚ := if avg > 0 ∧ minLatency > 0 then 40 * (minLatency / avg)
      else if avg = 0 then 40 else 0
    let jitter := b.Jitter s
    let sc2 : ℚ := sc1 + (if jitter > 0 ∧ minJitter > 0 then 30 * (minJitter / jitter)
      else if jitter = 0 then 30 else 0)
    let sc3 : ℚ := sc2 + (if b.MaxConnections > 0 then
        20 * (1 - (b.currentConns : ℚ) / (b.MaxConnections : ℚ)) else 20)
    let sc4 : ℚ := sc3 + (if b.failCount = 0 then 10 else 0)
    let t := b.Trend
    let sc5 : ℚ := sc4 + (if t > 20 then -10 else if t > 10 then -5
      else if t < -20 then 10 else if t < -10 then 5 else 0)
    let sc6 : ℚ := sc5 * ((b.trustCoeff : ℚ) / 100)
    let sc7 : ℚ := if sc6 < 0 then 0 else sc6
    let sc8 : ℚ := if sc7 > 100 then 100 else sc7
    Int.floor sc8

/-- `filterAvailable` (part_009 lines 144-152). -/
def filterAvailable (backends : List Backend) : List Backend :=
  backends.filter (fun b => b.IsAvailable)

/-- The history adjustment added inside `HealthScoreStrategy.Select`
(part_009 lines 97-100); `none` models a nil `*HistoryManager`. -/
def histAdjust (hist : Option HistoryManager) (period : Fin 96) (s : ℚ → ℚ)
    (b : Backend) : ℤ :=
  match hist with
  | none => 0
  | some hm => hm.HistoricalScore period b.Addr b.AvgLatency (b.Jitter s)

/-- The best-score loop of `HealthScoreStrategy.Select` (part_009 lines
90-106): keep the first backend whose score strictly exceeds the best so
far, starting from `bestScore = -1`. -/
def selectLoop (score : Backend → ℤ) : List Backend → Option Backend → ℤ →
    Option Backend
  | [], best, _ => best
  | b :: rest, best, bestScore =>
    let sc := score b
    if sc > bestScore then selectLoop score rest (some b) sc
    else selectLoop score rest best bestScore

/-- One iteration of the minimum-latency / minimum-jitter scan in
`HealthScoreStrategy.Select` (part_009 lines 70-80): a positive value
replaces the accumulator when the accumulator is still -1 or the value is
smaller. -/
def minsStep (s : ℚ → ℚ) (p : ℚ × ℚ) (b : Backend) : ℚ × ℚ :=
  let lat := b.AvgLatency
  let jit := b.Jitter s
  let m1 := if lat > 0 ∧ (p.1 < 0 ∨ lat < p.1) then lat else p.1
  let m2 := if jit > 0 ∧ (p.2 < 0 ∨ jit < p.2) then jit else p.2
  (m1, m2)

/-- `HealthScoreStrategy.Select` (part_009 lines 63-108): one pass computing
the minimum positive average latency and jitter over the available backends
(defaulting to 1 when none is positive), then the first-strict-max score
loop over `RelativeHealthScore` plus the history adjustment.  The current
wall-clock period consumed by `HistoricalScore` is passed explicitly;
`jitterThreshold` is accepted and unused exactly as in the source. -/
def HealthScoreSelect (s : ℚ → ℚ) (period : Fin 96)
    (hist : Option HistoryManager) (backends : List Backend)
    (jitterThreshold : ℚ) : Option Backend :=
  let _ := jitterThreshold
  let available := filterAvailable backends
  if available = [] then none
  else
    let mins := available.foldl (minsStep s) (-1, -1)
    let minLatency := if mins.1 ≤ 0 then 1 else mins.1
    let minJitter := if mins.2 ≤ 0 then 1 else mins.2
    let score := fun b =>
      b.RelativeHealthScore s minLatency minJitter + histAdjust hist period s b
    selectLoop score available none (-1)

/-- Modelled from the spec claim: "the available backend with the minimum
positive average latency, ties resolved by first encountered".  The minimum
of the available backends' average latencies. -/
def minAvgOf (l : List Backend) : ℚ :=
  match l with
  | [] => 0
  | h :: t => t.foldl (fun q b => min q b.AvgLatency) h.AvgLatency

/-- Modelled from the spec claim: the first available backend whose average
latency attains the minimum over the available set. -/
def specMinLatencyChoice (backends : List Backend) : Option Backend :=
  let available := filterAvailable backends
  available.find? (fun b => b.AvgLatency = minAvgOf available)

/-- Outcome of one probe against a backend, as observed by the health-check
loop: either `MCPing` returned nil with some measured latency (in ms), or it
returned an error. -/
inductive ProbeResult where
  | ok (latencyMs : ℤ)
  | fail
deriving DecidableEq

/-- The failure branch of the health-check body (part_004 lines 155-166):
`RecordHealthCheckFailure` (failure streak +1, success streak zeroed), then
mark unhealthy when the streak has reached `U` and the backend was healthy.
This branch never touches the latency window, so it is total. -/
def checkFailUpdate (U : ℤ) (b : Backend) : Backend :=
  let b1 := { b with failCount := b.failCount + 1, successCount := 0 }
  if b1.failCount ≥ U ∧ b1.healthy then { b1 with healthy := false } else b1

/-- The success branch of the health-check body after the latency sample has
been recorded (part_004 lines 172-188): `RecordHealthCheckSuccess` (failure
streak zeroed, success streak +1); a previously unhealthy backend flips to
healthy with trust reset to 50 and streak zeroed once the streak reaches
`H`; an already-healthy backend gains trust. -/
def checkSuccessUpdate (H : ℤ) (b : Backend) : Backend :=
  let wasUnhealthy := !b.healthy
  let b2 := { b with failCount := 0, successCount := b.successCount + 1 }
  if wasUnhealthy then
    if b2.successCount ≥ H then
      { b2 with healthy := true, trustCoeff := 50, successCount := 0 }
    else b2
  else b2.IncreaseTrust

/-- One iteration of the health-check body for a single non-disabled backend
(part_004 lines 146-189), with the wall clock (`now`, the current period)
passed explicitly.  On success the latency is recorded into the window
(which can panic, hence `Option`), the jitter is recomputed and recorded
into the history together with the latency. -/
def checkBackendStep (s : ℚ → ℚ) (U H : ℤ) (period : Fin 96) (now : ℤ)
    (pr : ProbeResult) (b : Backend) (hm : HistoryManager) :
    Option (Backend × HistoryManager) :=
  let b0 := { b with lastCheckTime := now }
  match pr with
  | .fail => some (checkFailUpdate U b0, hm)
  | .ok lat =>
    match b0.RecordLatency lat with
    | none => none
    | some b1 =>
      let jit := b1.Jitter s
      let hm2 := hm.Record period b1.Addr (lat : ℚ) jit
      some (checkSuccessUpdate H b1, hm2)

/-- The tracked connection wrapper (`trackedConn`, lb_server_info.go lines
103-115).  `closeDone` is the `sync.Once` state; the underlying socket close
is outside the model. -/
structure TrackedConn where
  backend : Backend
  playerName : String
  closeDone : Bool
deriving DecidableEq

/-- `trackedConn.Close`: the detach runs under `sync.Once`, so it happens at
most once; the socket close itself always runs. -/
def TrackedConn.Close (c : TrackedConn) : TrackedConn :=
  if c.closeDone then c
  else { c with backend := c.backend.RemovePlayer c.playerName, closeDone := true }

/-- A trust-mutating operation on a backend (claim C7). -/
inductive TrustOp where
  | reset
  | increase
deriving DecidableEq

/-- Apply one trust operation. -/
def applyTrustOp (b : Backend) : TrustOp → Backend
  | .reset => b.ResetTrust
  | .increase => b.IncreaseTrust

/-- Trust coefficient after a sequence of trust operations starting from a
fresh backend. -/
def trustAfter (ops : List TrustOp) : ℤ :=
  (ops.foldl applyTrustOp (NewBackend "a" 0 10)).trustCoeff

/-- A player-set operation on a backend (claims C4, C8). -/
inductive PlayerOp where
  | add (name : String)
  | remove (name : String)
deriving DecidableEq

/-- Apply one player operation. -/
def applyPlayerOp (b : Backend) : PlayerOp → Backend
  | .add n => b.AddPlayer n
  | .remove n => b.RemovePlayer n

/-- Run a sequence of player operations. -/
def runPlayerOps (b : Backend) (ops : List PlayerOp) : Backend :=
  ops.foldl applyPlayerOp b

/-- Sequences in which `AddPlayer` is never applied to a name that is
already attached (duplicate attachment is where the code diverges from the
claimed invariant). -/
def noDupAttach (b : Backend) : List PlayerOp → Bool
  | [] => true
  | op :: rest =>
    (match op with
     | .add n => decide (n ∉ b.players)
     | .remove _ => true) && noDupAttach (applyPlayerOp b op) rest

/-- `GetStrategy` (part_009 lines 154-169): the five strategy names; every
unknown name falls back to `health-score`. -/
def GetStrategy (name : String) : String :=
  if name = "round-robin" then "round-robin"
  else if name = "least-connections" then "least-connections"
  else if name = "health-score" then "health-score"
  else if name = "sequential" then "sequential"
  else if name = "random" then "random"
  else "health-score"

/-- The backend-construction loop of `LoadBalancer.registerServer`
(part_004 lines 66-70): one `NewBackend` per configured `(addr,
maxConnections)` pair, all sharing the configured window size.  It performs
no validation, so registration proceeds for any window size. -/
def registerBackends (cfgs : List (String × ℤ)) (windowSize : ℤ) :
    List Backend :=
  cfgs.map (fun c => NewBackend c.1 c.2 windowSize)

/-- Interpret a 32-bit pattern as a signed `int32` (two's complement). -/
def toInt32 (n : ℕ) : ℤ :=
  if n < 2 ^ 31 then (n : ℤ) else (n : ℤ) - 2 ^ 32

/-- `readVarInt` (part_006 lines 409-427) over a byte stream: 7 bits per
byte, continuation bit in the MSB; fails once the shift passes 32 bits or
the stream ends.  The `int32` OR-accumulation is modelled as a 32-bit
pattern (`% 2^32` truncates the shifted contribution exactly as the Go
`int32` shift does).  Returns the value and the remaining stream. -/
def readVarIntAux : ℕ → ℕ → List ℕ → Except String (ℤ × List ℕ)
  | _, _, [] => .error "read error"
  | shift, acc, byte :: rest =>
    let acc2 := acc ||| (((byte &&& 127) <<< shift) % 2 ^ 32)
    if byte &&& 128 = 0 then .ok (toInt32 acc2, rest)
    else
      let shift2 := shift + 7
      if shift2 ≥ 32 then .error "VarInt too big"
      else readVarIntAux shift2 acc2 rest

/-- `readVarInt` entry point (shift 0, zero accumulator). -/
def readVarInt (bs : List ℕ) : Except String (ℤ × List ℕ) :=
  readVarIntAux 0 0 bs

/-- `readPacket` (part_006 lines 429-442): a VarInt length prefix that must
be in (0, 1 MiB], followed by exactly that many body bytes.  Returns the
body and the remaining stream. -/
def readPacket (bs : List ℕ) : Except String (List ℕ × List ℕ) :=
  match readVarInt bs with
  | .error e => .error e
  | .ok (length, rest) =>
    if length ≤ 0 ∨ length > 1024 * 1024 then .error "invalid packet length"
    else if (rest.length : ℤ) < length then .error "read error"
    else .ok (rest.take length.toNat, rest.drop length.toNat)

/-- The read-and-validate half of `MCPingConn` (part_006 lines 330-376):
after the handshake and status request are written (`writesOk` abstracts
the two `writePacket` calls succeeding), read one framed packet from the
reply stream, require packet id `0x00`, then require a positive JSON
payload length VarInt.  The payload bytes themselves are never read. -/
def MCPingConn (writesOk : Bool) (reply : List ℕ) : Except String Unit :=
  if !writesOk then .error "failed to send"
  else
    match readPacket reply with
    | .error _ => .error "failed to read status response"
    | .ok (packetData, _) =>
      match readVarInt packetData with
      | .error _ => .error "unexpected packet ID"
      | .ok (packetId, afterId) =>
        if packetId ≠ 0 then .error "unexpected packet ID"
        else
          match readVarInt afterId with
          | .error _ => .error "invalid JSON response length"
          | .ok (jsonLen, _) =>
            if jsonLen ≤ 0 then .error "invalid JSON response length"
            else .ok ()

/-- The network-and-clock behaviour observed during one `Backend.MCPing`
call: the wall-clock reading at `start := time.Now()` (line 373), the
reading the immediately following `time.Since(start)` takes (line 374),
whether the TCP dial succeeds and when it completes, whether the two
`writePacket` calls succeed, the reply byte stream, and the instant at
which `MCPingConn` finishes validating the JSON length. -/
structure PingTrace where
  startTime : ℤ
  sinceTime : ℤ
  dialOk : Bool
  dialDoneTime : ℤ
  writesOk : Bool
  reply : List ℕ
  exchangeDoneTime : ℤ

/-- `Backend.MCPing` (part_002 lines 372-398): captures `start`, computes
`latency := time.Since(start)` immediately (before the dial), dials, runs
`MCPingConn`, and returns that early `latency` value on every path together
with success or failure. -/
def Backend.MCPing (b : Backend) (tr : PingTrace) : ℤ × Bool :=
  let _ := b.Addr
  let latency := tr.sinceTime - tr.startTime
  if !tr.dialOk then (latency, false)
  else
    match MCPingConn tr.writesOk tr.reply with
    | .error _ => (latency, false)
    | .ok _ => (latency, true)

/-- The latency the spec prescribes for a successful probe: wall-clock
elapsed time from just before the dial to just after the JSON length is
validated. -/
def specPingLatency (tr : PingTrace) : ℤ :=
  tr.exchangeDoneTime - tr.startTime

/-! ## Helper lemmas -/

/-- The reachable trust percentages. -/
def trustLevels : List ℤ := [50, 60, 70, 80, 90, 100]

lemma trust_mem_step (b : Backend) (op : TrustOp)
    (h : b.trustCoeff ∈ trustLevels) :
    (applyTrustOp b op).trustCoeff ∈ trustLevels := by
  cases op with
  | reset => simp [applyTrustOp, Backend.ResetTrust, trustLevels]
  | increase =>
    simp only [trustLevels, List.mem_cons, List.not_mem_nil, or_false] at h
    rcases h with h | h | h | h | h | h <;>
      simp [applyTrustOp, Backend.IncreaseTrust, h, trustLevels]

lemma trust_fold_mem : ∀ (ops : List TrustOp) (b : Backend),
    b.trustCoeff ∈ trustLevels → (ops.foldl applyTrustOp b).trustCoeff ∈ trustLevels := by
  intro ops
  induction ops with
  | nil => intro b h; simpa using h
  | cons op rest ih =>
    intro b h
    rw [List.foldl_cons]
    exact ih _ (trust_mem_step b op h)

/-! ## Claim theorems -/

/-- **C7.** For every sequence of trust operations (initial creation,
`ResetTrust`, `IncreaseTrust`) the trust coefficient stays in
{50, 60, 70, 80, 90, 100} percent; `ResetTrust` sets it to 50 and
`IncreaseTrust` adds 10 saturating at 100. -/
theorem trust_bounded_and_stepped :
    (∀ ops : List TrustOp, trustAfter ops ∈ trustLevels) ∧
    (∀ b : Backend, (b.ResetTrust).trustCoeff = 50) ∧
    (∀ b : Backend, b.trustCoeff ∈ trustLevels →
      (b.IncreaseTrust).trustCoeff = min (b.trustCoeff + 10) 100) := by
  refine ⟨fun ops => ?_, fun b => rfl, fun b h => ?_⟩
  · exact trust_fold_mem ops _ (by decide)
  · simp only [trustLevels, List.mem_cons, List.not_mem_nil, or_false] at h
    rcases h with h | h | h | h | h | h <;> simp [Backend.IncreaseTrust, h]

/-- Witness for C7: a fresh backend has trust 100 and one `IncreaseTrust`
keeps it saturated at 100. -/
theorem trust_bounded_and_stepped_witness :
    (NewBackend "w" 0 4).IncreaseTrust.trustCoeff =
      min ((NewBackend "w" 0 4).trustCoeff + 10) 100 :=
  trust_bounded_and_stepped.2.2 (NewBackend "w" 0 4) (by decide)

/-- **C8.** `AddPlayer(n); RemovePlayer(n); RemovePlayer(n)` restores
`currentConns` (the second detach is a no-op), and `Close` on a tracked
connection is idempotent and decrements `currentConns` at most once. -/
theorem detach_idempotent_and_close_once (b : Backend) (n : String)
    (c : TrackedConn) :
    (((b.AddPlayer n).RemovePlayer n).RemovePlayer n).currentConns = b.currentConns ∧
    c.Close.Close = c.Close ∧
    c.Close.backend.currentConns ≤ c.backend.currentConns ∧
    c.backend.currentConns - 1 ≤ c.Close.backend.currentConns := by
  have hrm : ∀ (b' : Backend) (m : String),
      (b'.RemovePlayer m).currentConns = b'.currentConns ∨
      (b'.RemovePlayer m).currentConns = b'.currentConns - 1 := by
    intro b' m
    by_cases h : m ∈ b'.players <;> simp [Backend.RemovePlayer, h]
  refine ⟨?_, ?_, ?_, ?_⟩
  · simp [Backend.AddPlayer, Backend.RemovePlayer, Finset.mem_insert_self,
      Finset.not_mem_erase]
  · by_cases h : c.closeDone <;> simp [TrackedConn.Close, h]
  · by_cases h : c.closeDone
    · simp [TrackedConn.Close, h]
    · rcases hrm c.backend c.playerName with h1 | h1 <;>
        simp [TrackedConn.Close, h, h1]
  · by_cases h : c.closeDone
    · simp [TrackedConn.Close, h]
    · rcases hrm c.backend c.playerName with h1 | h1 <;>
        simp [TrackedConn.Close, h, h1]

/-- **C4 counterexample.** Attaching the same name twice to a fresh backend
leaves one player in the set but `currentConns = 2`: attachment is not
idempotent and the `currentConns = |players|` relation is broken by a
duplicate attach. -/
theorem addPlayer_not_idempotent_cex :
    (((NewBackend "a" 0 10).AddPlayer "p").AddPlayer "p").currentConns = 2 ∧
    (((NewBackend "a" 0 10).AddPlayer "p").AddPlayer "p").players.card = 1 := by
  constructor
  · rfl
  · decide

/-- **C4 (amended).** `currentConns` equals the cardinality of `players`
along every operation sequence in which `AddPlayer` is never applied to an
already-attached name; a duplicate `AddPlayer` leaves the player set
unchanged while still incrementing `currentConns` (attachment is not
idempotent). -/
theorem conns_eq_card_without_dup_attach :
    (∀ (ops : List PlayerOp) (b : Backend),
      b.currentConns = (b.players.card : ℤ) → noDupAttach b ops = true →
      (runPlayerOps b ops).currentConns = ((runPlayerOps b ops).players.card : ℤ)) ∧
    (∀ (b : Backend) (n : String), n ∈ b.players →
      (b.AddPlayer n).players = b.players ∧
      (b.AddPlayer n).currentConns = b.currentConns + 1) := by
  constructor
  · intro ops
    induction ops with
    | nil => intro b h _; simpa [runPlayerOps] using h
    | cons op rest ih =>
      intro b h hnd
      simp only [noDupAttach, Bool.and_eq_true] at hnd
      have hstep : (applyPlayerOp b op).currentConns =
          ((applyPlayerOp b op).players.card : ℤ) := by
        cases op with
        | add n =>
          have hn : n ∉ b.players := by
            have := hnd.1
            simpa using this
          simp [applyPlayerOp, Backend.AddPlayer, Finset.card_insert_of_not_mem hn, h]
        | remove n =>
          by_cases hn : n ∈ b.players
          · have hpos : 1 ≤ b.players.card := Finset.card_pos.mpr ⟨n, hn⟩
            simp [applyPlayerOp, Backend.RemovePlayer, hn,
              Finset.card_erase_of_mem hn, h]
            push_cast [hpos]
            ring
          · simpa [applyPlayerOp, Backend.RemovePlayer, hn] using h
      have := ih (applyPlayerOp b op) hstep hnd.2
      simpa [runPlayerOps] using this
  · intro b n hn
    refine ⟨?_, rfl⟩
    simp [Backend.AddPlayer, Finset.insert_eq_self.mpr hn]

/-- Witness for C4: attach, detach, attach of distinct/non-attached names
keeps the counter equal to the set size. -/
theorem conns_eq_card_without_dup_attach_witness :
    (runPlayerOps (NewBackend "a" 0 10)
      [PlayerOp.add "p", PlayerOp.remove "p", PlayerOp.add "q"]).currentConns =
    ((runPlayerOps (NewBackend "a" 0 10)
      [PlayerOp.add "p", PlayerOp.remove "p", PlayerOp.add "q"]).players.card : ℤ) :=
  conns_eq_card_without_dup_attach.1 _ _ (by decide) (by decide)

/-- A backend whose window holds the single sample 5 ms. -/
def oneSampleBackend : Backend :=
  { NewBackend "cex5" 0 10 with latencyWindow := [5] }

/-- **C5 counterexample.** With exactly one sample (fewer than 2) the code
returns the sample itself as the average, not 0: `AvgLatency` only
special-cases the empty window. -/
theorem avg_latency_single_sample_cex :
    oneSampleBackend.latencyWindow.length < 2 ∧
    oneSampleBackend.AvgLatency = 5 ∧ oneSampleBackend.AvgLatency ≠ 0 := by
  refine ⟨by decide, ?_, ?_⟩ <;>
    norm_num [oneSampleBackend, Backend.AvgLatency, NewBackend]

/-- **C5 (amended).** `AvgLatency` is 0 only on the empty window and is the
arithmetic mean of the window otherwise (in particular, a single sample is
returned verbatim); `Jitter` is 0 below 2 samples and `math.Sqrt` of the
population variance from 2 samples on. -/
theorem avg_jitter_characterization (b : Backend) (s : ℚ → ℚ) :
    (b.latencyWindow = [] → b.AvgLatency = 0) ∧
    (b.latencyWindow ≠ [] →
      b.AvgLatency = (b.latencyWindow.sum : ℚ) / (b.latencyWindow.length : ℚ)) ∧
    (b.latencyWindow.length < 2 → b.Jitter s = 0) ∧
    (2 ≤ b.latencyWindow.length →
      b.Jitter s = s ((b.latencyWindow.map
        (fun v => ((v : ℚ) -
          (b.latencyWindow.sum : ℚ) / (b.latencyWindow.length : ℚ)) ^ 2)).sum
        / (b.latencyWindow.length : ℚ))) := by
  refine ⟨fun h => by simp [Backend.AvgLatency, h],
    fun h => by simp [Backend.AvgLatency, h],
    fun h => by simp [Backend.Jitter, h],
    fun h => ?_⟩
  have h2 : ¬ b.latencyWindow.length < 2 := by omega
  simp [Backend.Jitter, h2, popVariance]

/-- A backend whose window holds the two samples 1 ms and 3 ms. -/
def twoSampleBackend : Backend :=
  { NewBackend "w5" 0 10 with latencyWindow := [1, 3] }

/-- Witness for C5: on the window [1,3] the mean is 2 and the population
variance under the square root is 1. -/
theorem avg_jitter_characterization_witness :
    twoSampleBackend.AvgLatency = 2 ∧
    twoSampleBackend.Jitter (fun q => q) = 1 := by
  constructor
  · have h := (avg_jitter_characterization twoSampleBackend (fun q => q)).2.1
      (by decide)
    rw [h]
    norm_num [twoSampleBackend, NewBackend]
  · have h := (avg_jitter_characterization twoSampleBackend (fun q => q)).2.2.2
      (by decide)
    rw [h]
    norm_num [twoSampleBackend, NewBackend]

/-- **C10.** Pool registration performs no window-size validation, so a
zero configured window registers every backend; but the very first
`RecordLatency` on a zero-window backend evaluates `latencyWindow[1:]` on
an empty slice, an out-of-range slice expression that panics (modelled as
`none`), contradicting the claim that recording is safe. -/
theorem zero_window_registration_and_record :
    (∀ cfgs : List (String × ℤ), (registerBackends cfgs 0).length = cfgs.length) ∧
    (NewBackend "a" 0 0).RecordLatency 5 = none := by
  exact ⟨fun cfgs => by simp [registerBackends], by decide⟩

/-- The trace of a successful probe in which the dial completes 10 ms after
`start` and the status exchange validates the JSON length 50 ms after
`start`; the reply stream is a well-formed status response (frame length 4,
packet id 0x00, JSON length 2, two payload bytes). -/
def bugPingTrace : PingTrace :=
  { startTime := 0, sinceTime := 0, dialOk := true, dialDoneTime := 10,
    writesOk := true, reply := [4, 0, 2, 123, 125], exchangeDoneTime := 50 }

/-- **C1.** `MCPing` evaluates `time.Since(start)` immediately after
`start := time.Now()` — before the dial — and returns that value as the
latency on every path.  On a successful probe whose exchange finishes 50 ms
after `start`, the function reports latency 0, not the spec-prescribed
elapsed time from just before dial to just after the JSON length check. -/
theorem mcping_latency_measured_before_dial :
    (NewBackend "a" 0 10).MCPing bugPingTrace = (0, true) ∧
    specPingLatency bugPingTrace = 50 ∧
    ((NewBackend "a" 0 10).MCPing bugPingTrace).1 ≠ specPingLatency bugPingTrace := by
  refine ⟨by decide, by decide, by decide⟩

lemma lookup_setAssoc {α : Type} (l : List (String × α)) (k : String) (v : α) :
    (setAssoc l k v).lookup k = some v := by
  induction l with
  | nil => simp [setAssoc]
  | cons p t ih =>
    obtain ⟨k', v'⟩ := p
    by_cases h : k' = k
    · simp [setAssoc, h]
    · have hbeq : (k == k') = false := beq_eq_false_iff_ne.mpr (Ne.symm h)
      simp [setAssoc, h, ih, List.lookup, hbeq]

/-- **C9.** After `Record(addr, L, J)` at a period whose previous sample
count is 0 the stored averages are exactly `L` and `J`; otherwise the new
averages are `0.1·new + 0.9·old`; the sample counter always increases by
exactly 1. -/
theorem record_ema_update (hm : HistoryManager) (period : Fin 96)
    (addr : String) (L J : ℚ) :
    (hm.Record period addr L J).GetPeriodStats addr period =
      some { avgLatency :=
               if ((hm.GetPeriodStats addr period).getD zeroStats).samples = 0
               then L
               else emaAlpha * L + (1 - emaAlpha) *
                 ((hm.GetPeriodStats addr period).getD zeroStats).avgLatency
             avgJitter :=
               if ((hm.GetPeriodStats addr period).getD zeroStats).samples = 0
               then J
               else emaAlpha * J + (1 - emaAlpha) *
                 ((hm.GetPeriodStats addr period).getD zeroStats).avgJitter
             samples := ((hm.GetPeriodStats addr period).getD zeroStats).samples + 1 } := by
  cases hcase : hm.backends.lookup addr with
  | none =>
    simp [HistoryManager.Record, HistoryManager.GetPeriodStats, hcase,
      lookup_setAssoc, zeroStats]
  | some f =>
    by_cases hs : (f period).samples = 0 <;>
      simp [HistoryManager.Record, HistoryManager.GetPeriodStats, hcase,
        lookup_setAssoc, hs, zeroStats]

/-- A history for address "a" holding 20 samples (avg latency 50, avg
jitter 5) at every period. -/
def cexHistory : HistoryManager := ⟨[("a", fun _ => ⟨50, 5, 20⟩)]⟩

/-- **C6 counterexample.** With 20 samples, stored average latency 50 and a
current latency of 0, the ratio r = 0/50 = 0 < 0.70, so the claim's
threshold table yields +8; the code's positivity guard on the current
latency makes it return 0 instead. -/
theorem historical_score_zero_current_cex :
    cexHistory.HistoricalScore 0 "a" 0 5 = 0 ∧
    claimedHistoricalScore cexHistory 0 "a" 0 5 = 8 := by
  have hlook : cexHistory.backends.lookup "a" =
      some (fun _ => (⟨50, 5, 20⟩ : PeriodStats)) := rfl
  constructor <;>
    norm_num [HistoryManager.HistoricalScore, claimedHistoricalScore,
      HistoryManager.GetPeriodStats, hlook, minSamplesForUse]

/-- **C6 (amended).** `HistoricalScore` returns 0 whenever the current
period's sample count is below 20 (in particular at 19 samples, and when the
address has no history); with at least 20 samples it returns the sum of the
latency table (±8/±4) and the jitter table (±4), where each table
contributes 0 unless both the stored average and the current value are
positive; the result always lies in [-12, +12]. -/
theorem historical_score_characterization (hm : HistoryManager)
    (period : Fin 96) (addr : String) (L J : ℚ) :
    (((hm.GetPeriodStats addr period).getD zeroStats).samples < minSamplesForUse →
      hm.HistoricalScore period addr L J = 0) ∧
    (∀ st : PeriodStats, hm.GetPeriodStats addr period = some st →
      minSamplesForUse ≤ st.samples →
      hm.HistoricalScore period addr L J =
        (if st.avgLatency > 0 ∧ L > 0 then
          (if L / st.avgLatency < 7/10 then 8
           else if L / st.avgLatency < 85/100 then 4
           else if L / st.avgLatency > 3/2 then -8
           else if L / st.avgLatency > 6/5 then -4 else 0)
         else 0) +
        (if st.avgJitter > 0 ∧ J > 0 then
          (if J / st.avgJitter < 7/10 then 4
           else if J / st.avgJitter > 3/2 then -4 else 0)
         else 0)) ∧
    (-12 ≤ hm.HistoricalScore period addr L J ∧
      hm.HistoricalScore period addr L J ≤ 12) := by
  refine ⟨?_, ?_, ?_⟩
  · intro hlt
    cases hg : hm.GetPeriodStats addr period with
    | none => simp [HistoryManager.HistoricalScore, hg]
    | some st =>
      rw [hg] at hlt
      simp only [Option.getD_some] at hlt
      simp [HistoryManager.HistoricalScore, hg, hlt]
  · intro st hg hge
    have hlt : ¬ st.samples < minSamplesForUse := by omega
    simp [HistoryManager.HistoricalScore, hg, hlt]
  · cases hg : hm.GetPeriodStats addr period with
    | none => simp [HistoryManager.HistoricalScore, hg]
    | some st =>
      simp only [HistoryManager.HistoricalScore, hg]
      split_ifs <;> norm_num

/-- A history for address "a" holding exactly 19 samples at every period. -/
def hist19 : HistoryManager := ⟨[("a", fun _ => ⟨50, 5, 19⟩)]⟩

/-- Witness for C6: at exactly 19 samples the historical score is 0. -/
theorem historical_score_characterization_witness :
    hist19.HistoricalScore 0 "a" 10 10 = 0 := by
  have hlook : hist19.backends.lookup "a" =
      some (fun _ => (⟨50, 5, 19⟩ : PeriodStats)) := rfl
  exact (historical_score_characterization hist19 0 "a" 10 10).1
    (by simp [HistoryManager.GetPeriodStats, hlook, minSamplesForUse])

lemma RecordLatency_fields {b b1 : Backend} {ms : ℤ}
    (h : b.RecordLatency ms = some b1) :
    b1.healthy = b.healthy ∧ b1.failCount = b.failCount ∧
    b1.successCount = b.successCount ∧ b1.trustCoeff = b.trustCoeff ∧
    b1.Addr = b.Addr := by
  unfold Backend.RecordLatency at h
  split at h
  · split at h
    · exact Option.noConfusion h
    · simp only [Option.some.injEq] at h
      subst h; simp
  · simp only [Option.some.injEq] at h
    subst h; simp

lemma IncreaseTrust_fields (b : Backend) :
    (b.IncreaseTrust).healthy = b.healthy ∧
    (b.IncreaseTrust).failCount = b.failCount ∧
    (b.IncreaseTrust).successCount = b.successCount := by
  unfold Backend.IncreaseTrust
  split <;> simp

lemma checkFailUpdate_failCount (U : ℤ) (b : Backend) :
    (checkFailUpdate U b).failCount = b.failCount + 1 := by
  by_cases h : b.failCount + 1 ≥ U ∧ b.healthy = true <;>
    simp [checkFailUpdate, h]

lemma checkFailUpdate_successCount (U : ℤ) (b : Backend) :
    (checkFailUpdate U b).successCount = 0 := by
  by_cases h : b.failCount + 1 ≥ U ∧ b.healthy = true <;>
    simp [checkFailUpdate, h]

lemma checkFailUpdate_healthy (U : ℤ) (b : Backend) :
    (checkFailUpdate U b).healthy =
      (b.healthy && decide (b.failCount + 1 < U)) := by
  by_cases h : b.failCount + 1 ≥ U ∧ b.healthy = true
  · have h1 : ¬ (b.failCount + 1 < U) := by omega
    simp [checkFailUpdate, h, h.2, h1]
  · by_cases hh : b.healthy = true
    · have h2 : b.failCount + 1 < U := by
        rcases not_and_or.mp h with h2 | h2
        · omega
        · exact absurd hh h2
      have h3 : ¬ (U ≤ b.failCount + 1) := by omega
      simp [checkFailUpdate, h, hh, h2, h3]
    · have hf : b.healthy = false := by
        revert hh; cases b.healthy <;> simp
      simp [checkFailUpdate, h, hf]

lemma checkSuccessUpdate_of_healthy (H : ℤ) (b : Backend)
    (hb : b.healthy = true) : (checkSuccessUpdate H b).healthy = true := by
  simp only [checkSuccessUpdate, hb]
  simpa using (IncreaseTrust_fields _).1

lemma checkSuccessUpdate_of_unhealthy (H : ℤ) (b : Backend)
    (hb : b.healthy = false) :
    (checkSuccessUpdate H b) =
      (if H ≤ b.successCount + 1 then
        { b with failCount := 0, successCount := 0, healthy := true,
                 trustCoeff := 50 }
      else { b with failCount := 0, successCount := b.successCount + 1 }) := by
  by_cases h : H ≤ b.successCount + 1 <;> simp [checkSuccessUpdate, hb, h]

lemma checkFailUpdate_iter (U : ℤ) (hU : 1 ≤ U) (b : Backend)
    (hb : b.healthy = true) (hf : b.failCount = 0) : ∀ k : ℕ,
    ((checkFailUpdate U)^[k] b).failCount = (k : ℤ) ∧
    ((checkFailUpdate U)^[k] b).healthy = decide ((k : ℤ) < U) := by
  intro k
  induction k with
  | zero =>
    have h0 : (0 : ℤ) < U := by omega
    simp [hf, hb, h0]
  | succ k ih =>
    rw [Function.iterate_succ_apply']
    refine ⟨?_, ?_⟩
    · rw [checkFailUpdate_failCount, ih.1]; push_cast; ring
    · rw [checkFailUpdate_healthy, ih.1, ih.2]
      push_cast
      by_cases h1 : ((k : ℤ) + 1 < U) <;> by_cases h2 : ((k : ℤ) < U)
      · simp [h1, h2]
      · omega
      · simp [h1, h2]
      · simp [h1, h2]

/-- **C3.** In the health-check body, `healthy: true→false` happens only on
a failing probe whose incremented failure streak has reached `U` (exactly
`U` consecutive failing probes flip a clean healthy backend, `U−1` do not);
`false→true` happens only on a successful probe whose incremented success
streak has reached `H`, and on that flip the trust coefficient is reset to
50 (0.50) and the success streak is zeroed. -/
theorem health_transition_hysteresis (s : ℚ → ℚ) (U H : ℤ) (period : Fin 96)
    (now : ℤ) (hU : 1 ≤ U) (_hH : 1 ≤ H) :
    (∀ pr b hm b2 hm2,
      checkBackendStep s U H period now pr b hm = some (b2, hm2) →
      b.healthy = true → b2.healthy = false →
      pr = ProbeResult.fail ∧ b2.failCount = b.failCount + 1 ∧
        U ≤ b2.failCount) ∧
    (∀ pr b hm b2 hm2,
      checkBackendStep s U H period now pr b hm = some (b2, hm2) →
      b.healthy = false → b2.healthy = true →
      H ≤ b.successCount + 1 ∧ b2.trustCoeff = 50 ∧ b2.successCount = 0) ∧
    (∀ b : Backend, b.healthy = true → b.failCount = 0 →
      ((checkFailUpdate U)^[U.toNat] b).healthy = false ∧
      ((checkFailUpdate U)^[U.toNat - 1] b).healthy = true) := by
  refine ⟨?_, ?_, ?_⟩
  · intro pr b hm b2 hm2 hstep hb hb2
    cases pr with
    | fail =>
      simp only [checkBackendStep, Option.some.injEq, Prod.mk.injEq] at hstep
      obtain ⟨h1, -⟩ := hstep
      subst h1
      rw [checkFailUpdate_healthy] at hb2
      rw [checkFailUpdate_failCount]
      simp only [show ({b with lastCheckTime := now} : Backend).healthy
          = b.healthy from rfl, hb, Bool.true_and,
        show ({b with lastCheckTime := now} : Backend).failCount
          = b.failCount from rfl] at hb2 ⊢
      simp only [decide_eq_false_iff_not, not_lt] at hb2
      exact ⟨trivial, trivial, by omega⟩
    | ok lat =>
      simp only [checkBackendStep] at hstep
      cases hrl : ({b with lastCheckTime := now} : Backend).RecordLatency lat with
      | none => rw [hrl] at hstep; exact Option.noConfusion hstep
      | some b1 =>
        rw [hrl] at hstep
        simp only [Option.some.injEq, Prod.mk.injEq] at hstep
        obtain ⟨h1, -⟩ := hstep
        subst h1
        have hb1 : b1.healthy = true := by
          rw [(RecordLatency_fields hrl).1]; exact hb
        rw [checkSuccessUpdate_of_healthy H b1 hb1] at hb2
        exact Bool.noConfusion hb2
  · intro pr b hm b2 hm2 hstep hb hb2
    cases pr with
    | fail =>
      simp only [checkBackendStep, Option.some.injEq, Prod.mk.injEq] at hstep
      obtain ⟨h1, -⟩ := hstep
      subst h1
      rw [checkFailUpdate_healthy] at hb2
      simp only [show ({b with lastCheckTime := now} : Backend).healthy
          = b.healthy from rfl, hb, Bool.false_and] at hb2
      exact Bool.noConfusion hb2
    | ok lat =>
      simp only [checkBackendStep] at hstep
      cases hrl : ({b with lastCheckTime := now} : Backend).RecordLatency lat with
      | none => rw [hrl] at hstep; exact Option.noConfusion hstep
      | some b1 =>
        rw [hrl] at hstep
        simp only [Option.some.injEq, Prod.mk.injEq] at hstep
        obtain ⟨h1, -⟩ := hstep
        subst h1
        obtain ⟨hfh, -, hfs, -, -⟩ := RecordLatency_fields hrl
        have hb1 : b1.healthy = false := by
          rw [hfh]; exact hb
        rw [checkSuccessUpdate_of_unhealthy H b1 hb1] at hb2 ⊢
        by_cases hge : H ≤ b1.successCount + 1
        · rw [if_pos hge] at hb2 ⊢
          have hred : b1.successCount = b.successCount := by rw [hfs]
          refine ⟨by omega, rfl, rfl⟩
        · rw [if_neg hge] at hb2
          have hcontra : b1.healthy = true := hb2
          rw [hb1] at hcontra
          exact Bool.noConfusion hcontra
  · intro b hb hf
    have h1 := (checkFailUpdate_iter U hU b hb hf U.toNat).2
    have h2 := (checkFailUpdate_iter U hU b hb hf (U.toNat - 1)).2
    have hcast : ((U.toNat : ℤ)) = U := Int.toNat_of_nonneg (by omega)
    constructor
    · rw [h1, hcast]; simp
    · rw [h2]
      have : ((U.toNat - 1 : ℕ) : ℤ) < U := by omega
      simp [this]

/-- A fresh backend used to witness the hysteresis boundary. -/
def hcBackend : Backend := NewBackend "hc" 0 10

/-- Witness for C3: with `U = 2`, two consecutive failures flip a clean
healthy backend, one does not. -/
theorem health_transition_hysteresis_witness :
    ((checkFailUpdate 2)^[(2 : ℤ).toNat] hcBackend).healthy = false ∧
    ((checkFailUpdate 2)^[(2 : ℤ).toNat - 1] hcBackend).healthy = true :=
  (health_transition_hysteresis (fun q => q) 2 2 0 0 (by norm_num)
    (by norm_num)).2.2 hcBackend rfl rfl

/-! ## Lemmas for the health-score selection claim -/

lemma isAvailable_fields {b : Backend} (h : b.IsAvailable = true) :
    b.disabled = false ∧ b.healthy = true := by
  unfold Backend.IsAvailable at h
  by_cases h1 : b.disabled <;> by_cases h2 : b.healthy <;> simp_all

/-- The latency component of the min-scan step. -/
def latScanStep (q : ℚ) (b : Backend) : ℚ :=
  if b.AvgLatency > 0 ∧ (q < 0 ∨ b.AvgLatency < q) then b.AvgLatency else q

/-- The jitter component of the min-scan step. -/
def jitScanStep (s : ℚ → ℚ) (q : ℚ) (b : Backend) : ℚ :=
  if b.Jitter s > 0 ∧ (q < 0 ∨ b.Jitter s < q) then b.Jitter s else q

lemma minsFold_eq (s : ℚ → ℚ) (l : List Backend) : ∀ p : ℚ × ℚ,
    l.foldl (minsStep s) p =
      (l.foldl latScanStep p.1, l.foldl (jitScanStep s) p.2) := by
  induction l with
  | nil => intro p; simp
  | cons b t ih =>
    intro p
    rw [List.foldl_cons, List.foldl_cons, List.foldl_cons, ih]
    rfl

lemma latScan_pos (l : List Backend) (hl : ∀ b ∈ l, 0 < b.AvgLatency) :
    ∀ q : ℚ, 0 < q →
      l.foldl latScanStep q = l.foldl (fun q b => min q b.AvgLatency) q := by
  induction l with
  | nil => intro q _; rfl
  | cons b t ih =>
    intro q hq
    have hb : 0 < b.AvgLatency := hl b (List.mem_cons_self b t)
    have hstep : latScanStep q b = min q b.AvgLatency := by
      unfold latScanStep
      by_cases hc : b.AvgLatency < q
      · rw [if_pos ⟨hb, Or.inr hc⟩, min_eq_right (le_of_lt hc)]
      · have : ¬ (b.AvgLatency > 0 ∧ (q < 0 ∨ b.AvgLatency < q)) := by
          rintro ⟨-, h | h⟩
          · exact absurd hq (not_lt.mpr (le_of_lt h))
          · exact hc h
        rw [if_neg this, min_eq_left (not_lt.mp hc)]
    rw [List.foldl_cons, List.foldl_cons, hstep,
      ih (fun x hx => hl x (List.mem_cons_of_mem b hx)) _
        (lt_min hq hb)]

lemma latScan_from_neg (l : List Backend) (hl : ∀ b ∈ l, 0 < b.AvgLatency)
    (hne : l ≠ []) : l.foldl latScanStep (-1) = minAvgOf l := by
  cases l with
  | nil => exact absurd rfl hne
  | cons b t =>
    have hb : 0 < b.AvgLatency := hl b (List.mem_cons_self b t)
    have hstep : latScanStep (-1) b = b.AvgLatency := by
      unfold latScanStep
      rw [if_pos ⟨hb, Or.inl (by norm_num)⟩]
    rw [List.foldl_cons, hstep, minAvgOf,
      latScan_pos t (fun x hx => hl x (List.mem_cons_of_mem b hx)) _ hb]

lemma foldl_min_le_init (l : List Backend) : ∀ q : ℚ,
    l.foldl (fun q b => min q b.AvgLatency) q ≤ q := by
  induction l with
  | nil => intro q; exact le_refl q
  | cons b t ih =>
    intro q
    rw [List.foldl_cons]
    exact le_trans (ih _) (min_le_left _ _)

lemma foldl_min_le_mem (l : List Backend) : ∀ (q : ℚ) (b : Backend), b ∈ l →
    l.foldl (fun q b => min q b.AvgLatency) q ≤ b.AvgLatency := by
  induction l with
  | nil => intro q b hb; exact absurd hb (List.not_mem_nil b)
  | cons c t ih =>
    intro q b hb
    rw [List.foldl_cons]
    rcases List.mem_cons.mp hb with rfl | hb
    · exact le_trans (foldl_min_le_init t _) (min_le_right _ _)
    · exact ih _ b hb

lemma foldl_min_cases (l : List Backend) : ∀ q : ℚ,
    l.foldl (fun q b => min q b.AvgLatency) q = q ∨
    ∃ b ∈ l, l.foldl (fun q b => min q b.AvgLatency) q = b.AvgLatency := by
  induction l with
  | nil => intro q; exact Or.inl rfl
  | cons c t ih =>
    intro q
    rw [List.foldl_cons]
    rcases ih (min q c.AvgLatency) with h | ⟨b, hb, h⟩
    · rcases min_cases q c.AvgLatency with ⟨hmin, -⟩ | ⟨hmin, -⟩
      · exact Or.inl (by rw [h, hmin])
      · exact Or.inr ⟨c, List.mem_cons_self c t, by rw [h, hmin]⟩
    · exact Or.inr ⟨b, List.mem_cons_of_mem c hb, h⟩

lemma minAvgOf_le (l : List Backend) (b : Backend) (hb : b ∈ l) :
    minAvgOf l ≤ b.AvgLatency := by
  cases l with
  | nil => exact absurd hb (List.not_mem_nil b)
  | cons c t =>
    rcases List.mem_cons.mp hb with rfl | hb
    · exact foldl_min_le_init t _
    · exact foldl_min_le_mem t _ b hb

lemma minAvgOf_attained (l : List Backend) (hne : l ≠ []) :
    ∃ b ∈ l, b.AvgLatency = minAvgOf l := by
  cases l with
  | nil => exact absurd rfl hne
  | cons c t =>
    rcases foldl_min_cases t c.AvgLatency with h | ⟨b, hb, h⟩
    · exact ⟨c, List.mem_cons_self c t, h.symm⟩
    · exact ⟨b, List.mem_cons_of_mem c hb, h.symm⟩

lemma minAvgOf_pos (l : List Backend) (hl : ∀ b ∈ l, 0 < b.AvgLatency)
    (hne : l ≠ []) : 0 < minAvgOf l := by
  obtain ⟨b, hb, h⟩ := minAvgOf_attained l hne
  rw [← h]
  exact hl b hb

lemma jitScan_zero (s : ℚ → ℚ) (l : List Backend)
    (hl : ∀ b ∈ l, b.Jitter s = 0) : ∀ q : ℚ,
    l.foldl (jitScanStep s) q = q := by
  induction l with
  | nil => intro q; rfl
  | cons b t ih =>
    intro q
    have hb : b.Jitter s = 0 := hl b (List.mem_cons_self b t)
    have hstep : jitScanStep s q b = q := by
      unfold jitScanStep
      rw [hb, if_neg (by rintro ⟨h, -⟩; exact lt_irrefl 0 h)]
    rw [List.foldl_cons, hstep, ih (fun x hx => hl x (List.mem_cons_of_mem b hx))]

lemma jitScan_const_pos (s : ℚ → ℚ) (j : ℚ) (hj : 0 < j) :
    ∀ l : List Backend, (∀ b ∈ l, b.Jitter s = j) →
    l.foldl (jitScanStep s) j = j := by
  intro l
  induction l with
  | nil => intro _; rfl
  | cons b t ih =>
    intro hl
    have hb : b.Jitter s = j := hl b (List.mem_cons_self b t)
    have hstep : jitScanStep s j b = j := by
      unfold jitScanStep
      rw [hb, if_neg (by rintro ⟨-, h | h⟩ <;> exact absurd h (by simp [le_of_lt hj, lt_irrefl]))]
    rw [List.foldl_cons, hstep, ih (fun x hx => hl x (List.mem_cons_of_mem b hx))]

lemma jitScan_from_neg_pos (s : ℚ → ℚ) (j : ℚ) (hj : 0 < j)
    (l : List Backend) (hl : ∀ b ∈ l, b.Jitter s = j) (hne : l ≠ []) :
    l.foldl (jitScanStep s) (-1) = j := by
  cases l with
  | nil => exact absurd rfl hne
  | cons b t =>
    have hb : b.Jitter s = j := hl b (List.mem_cons_self b t)
    have hstep : jitScanStep s (-1) b = j := by
      unfold jitScanStep
      rw [hb, if_pos ⟨hj, Or.inl (by norm_num)⟩]
    rw [List.foldl_cons, hstep,
      jitScan_const_pos s j hj t (fun x hx => hl x (List.mem_cons_of_mem b hx))]

lemma relScore_shape (s : ℚ → ℚ) (b : Backend) (m mJ j τ : ℚ) (p : ℤ)
    (hdis : b.disabled = false) (hhea : b.healthy = true)
    (havg : 0 < b.AvgLatency) (hm : 0 < m)
    (hjit : b.Jitter s = j) (hj : 0 ≤ j) (hmJ : 0 < j → mJ = j)
    (hconn : b.currentConns = 0) (hfail : b.failCount = 0)
    (htr : b.Trend = τ) (ht1 : -10 ≤ τ) (ht2 : τ ≤ 10)
    (htru : b.trustCoeff = p) (hp1 : 1 ≤ p) (hp2 : p ≤ 100)
    (hle : m ≤ b.AvgLatency) :
    b.RelativeHealthScore s m mJ =
      Int.floor ((40 * (m / b.AvgLatency) + 60) * ((p : ℚ) / 100)) := by
  have h20 : ¬ (20 : ℚ) < τ := by linarith
  have h10 : ¬ (10 : ℚ) < τ := by linarith
  have hm20 : ¬ τ < -20 := by linarith
  have hm10 : ¬ τ < -10 := by linarith
  have hjterm : (if b.Jitter s > 0 ∧ mJ > 0 then 30 * (mJ / b.Jitter s)
      else if b.Jitter s = 0 then (30 : ℚ) else 0) = 30 := by
    rcases eq_or_lt_of_le hj with hj0 | hjpos
    · rw [hjit, ← hj0]
      rw [if_neg (by rintro ⟨h, -⟩; exact lt_irrefl 0 h), if_pos rfl]
    · rw [hjit, hmJ hjpos, if_pos ⟨hjpos, hjpos⟩,
        div_self (ne_of_gt hjpos), mul_one]
  have hcterm : (if b.MaxConnections > 0 then
      20 * (1 - (b.currentConns : ℚ) / (b.MaxConnections : ℚ)) else (20 : ℚ)) = 20 := by
    by_cases hmc : (0 : ℤ) < b.MaxConnections
    · rw [if_pos hmc, hconn]
      norm_num
    · rw [if_neg hmc]
  have hbase : (0 : ℚ) < 40 * (m / b.AvgLatency) + 60 := by
    have : 0 < m / b.AvgLatency := div_pos hm havg
    linarith
  have hbound : 40 * (m / b.AvgLatency) + 60 ≤ 100 := by
    have : m / b.AvgLatency ≤ 1 := (div_le_one havg).mpr hle
    linarith
  have hpq1 : (0 : ℚ) < (p : ℚ) / 100 := by
    have : (1 : ℚ) ≤ (p : ℚ) := by exact_mod_cast hp1
    linarith
  have hpq2 : (p : ℚ) / 100 ≤ 1 := by
    have : (p : ℚ) ≤ 100 := by exact_mod_cast hp2
    linarith
  have hx0 : ¬ ((40 * (m / b.AvgLatency) + 60) * ((p : ℚ) / 100) < 0) :=
    not_lt.mpr (le_of_lt (mul_pos hbase hpq1))
  have hx100 : ¬ ((100 : ℚ) <
      (40 * (m / b.AvgLatency) + 60) * ((p : ℚ) / 100)) := by
    push_neg
    calc (40 * (m / b.AvgLatency) + 60) * ((p : ℚ) / 100)
        ≤ 100 * ((p : ℚ) / 100) := by
          exact mul_le_mul_of_nonneg_right hbound (le_of_lt hpq1)
      _ ≤ 100 * 1 := by
          exact mul_le_mul_of_nonneg_left hpq2 (by norm_num)
      _ = 100 := by norm_num
  simp only [Backend.RelativeHealthScore, hdis, hhea, Bool.not_true,
    Bool.false_eq_true, if_false, if_pos (And.intro havg hm), hjterm, hcterm,
    hfail, if_pos rfl, if_true, htr, if_neg h20, if_neg h10, if_neg hm20,
    if_neg hm10, htru]
  have hshape : 40 * (m / b.AvgLatency) + 30 + 20 + 10 + 0 =
      40 * (m / b.AvgLatency) + 60 := by ring
  rw [hshape, if_neg hx0, if_neg hx100]

lemma selectLoop_stay (score : Backend → ℤ) :
    ∀ (l : List Backend) (acc : Option Backend) (accS : ℤ),
    (∀ b ∈ l, score b ≤ accS) → selectLoop score l acc accS = acc := by
  intro l
  induction l with
  | nil => intro acc accS _; rfl
  | cons b t ih =>
    intro acc accS hall
    have hb : ¬ (score b > accS) :=
      not_lt.mpr (hall b (List.mem_cons_self b t))
    simp only [selectLoop]
    rw [if_neg hb]
    exact ih acc accS (fun x hx => hall x (List.mem_cons_of_mem b hx))

lemma selectLoop_finds (score : Backend → ℤ) (p : ℤ) :
    ∀ (l : List Backend) (acc : Option Backend) (accS : ℤ),
    accS < p → (∀ b ∈ l, score b ≤ p) → (∃ b ∈ l, score b = p) →
    selectLoop score l acc accS = l.find? (fun b => score b = p) := by
  intro l
  induction l with
  | nil =>
    intro acc accS _ _ hex
    simp at hex
  | cons b t ih =>
    intro acc accS haccS hall hex
    by_cases hb : score b = p
    · simp only [selectLoop]
      rw [if_pos (by omega : score b > accS)]
      rw [selectLoop_stay score t (some b) (score b)
        (fun x hx => by rw [hb]; exact hall x (List.mem_cons_of_mem b hx))]
      rw [List.find?_cons_of_pos _ (by simp [hb])]
    · have hex2 : ∃ x ∈ t, score x = p := by
        rcases hex with ⟨x, hx, hxp⟩
        rcases List.mem_cons.mp hx with rfl | hx
        · exact absurd hxp hb
        · exact ⟨x, hx, hxp⟩
      have hall2 : ∀ x ∈ t, score x ≤ p :=
        fun x hx => hall x (List.mem_cons_of_mem b hx)
      have hble : score b ≤ p := hall b (List.mem_cons_self b t)
      rw [List.find?_cons_of_neg _ (by simp [hb])]
      simp only [selectLoop]
      by_cases hgt : score b > accS
      · rw [if_pos hgt]
        exact ih (some b) (score b) (by omega) hall2 hex2
      · rw [if_neg hgt]
        exact ih acc accS haccS hall2 hex2

lemma find_congr_on (l : List Backend) (f g : Backend → Bool)
    (h : ∀ b ∈ l, f b = g b) : l.find? f = l.find? g := by
  induction l with
  | nil => rfl
  | cons b t ih =>
    have hb := h b (List.mem_cons_self b t)
    cases hfb : f b with
    | true =>
      rw [List.find?_cons_of_pos _ hfb,
        List.find?_cons_of_pos _ (hb.symm.trans hfb)]
    | false =>
      rw [List.find?_cons_of_neg _ (by rw [hfb]; simp),
        List.find?_cons_of_neg _ (by rw [← hb, hfb]; simp),
        ih (fun x hx => h x (List.mem_cons_of_mem b hx))]

lemma histAdjust_empty (period : Fin 96) (s : ℚ → ℚ) (b : Backend) :
    histAdjust (some emptyHistory) period s b = 0 := by
  simp [histAdjust, HistoryManager.HistoricalScore,
    HistoryManager.GetPeriodStats, emptyHistory]

/-- **C2 (amended).** When no backend has historical data and the available
backends share their non-latency factors at full value — every available
backend has a positive average latency, a common nonnegative jitter, zero
connection load, zero failure streak, a common trend whose adjustment is 0
(|trend| ≤ 10), and a common trust percentage in [1, 100] — the
minimum-latency backend's pre-trust subtotal is exactly 100 and its
truncated score strictly dominates, so `HealthScoreStrategy.Select` returns
the first available backend with minimum average latency.  (Without the
full-value condition the claim fails: integer truncation of the
trust-scaled score can tie a higher-latency backend listed earlier with the
minimum-latency one — see the counterexample.) -/
theorem healthscore_select_min_latency (s : ℚ → ℚ) (period : Fin 96)
    (hist : Option HistoryManager) (bs : List Backend) (jt : ℚ)
    (j τ : ℚ) (p : ℤ)
    (hne : filterAvailable bs ≠ [])
    (hpos : ∀ b ∈ filterAvailable bs, 0 < b.AvgLatency)
    (hjit : ∀ b ∈ filterAvailable bs, b.Jitter s = j) (hj : 0 ≤ j)
    (hconn : ∀ b ∈ filterAvailable bs, b.currentConns = 0)
    (hfail : ∀ b ∈ filterAvailable bs, b.failCount = 0)
    (htrend : ∀ b ∈ filterAvailable bs, b.Trend = τ)
    (ht1 : -10 ≤ τ) (ht2 : τ ≤ 10)
    (htrust : ∀ b ∈ filterAvailable bs, b.trustCoeff = p)
    (hp1 : 1 ≤ p) (hp2 : p ≤ 100)
    (hhist : ∀ b ∈ filterAvailable bs, histAdjust hist period s b = 0) :
    HealthScoreSelect s period hist bs jt = specMinLatencyChoice bs := by
  have havail : ∀ b ∈ filterAvailable bs, b.IsAvailable = true := fun b hb =>
    (List.mem_filter.mp hb).2
  have hmpos : 0 < minAvgOf (filterAvailable bs) := minAvgOf_pos _ hpos hne
  have hlat : (filterAvailable bs).foldl latScanStep (-1) =
      minAvgOf (filterAvailable bs) := latScan_from_neg _ hpos hne
  obtain ⟨mJt, hjfold, hmJt⟩ : ∃ mJt : ℚ,
      (if (filterAvailable bs).foldl (jitScanStep s) (-1) ≤ 0 then (1 : ℚ)
        else (filterAvailable bs).foldl (jitScanStep s) (-1)) = mJt ∧
      (0 < j → mJt = j) := by
    rcases eq_or_lt_of_le hj with hj0 | hjpos
    · refine ⟨1, ?_, fun hc => absurd hc (by rw [← hj0]; exact lt_irrefl 0)⟩
      rw [jitScan_zero s _ (fun b hb => by rw [hjit b hb, ← hj0])]
      norm_num
    · refine ⟨j, ?_, fun _ => rfl⟩
      rw [jitScan_from_neg_pos s j hjpos _ hjit hne,
        if_neg (not_le.mpr hjpos)]
  have hsc_eq : ∀ b ∈ filterAvailable bs,
      b.AvgLatency = minAvgOf (filterAvailable bs) →
      b.RelativeHealthScore s (minAvgOf (filterAvailable bs)) mJt +
        histAdjust hist period s b = p := by
    intro b hb heq
    obtain ⟨hdis, hhea⟩ := isAvailable_fields (havail b hb)
    rw [hhist b hb, add_zero,
      relScore_shape s b _ mJt j τ p hdis hhea (hpos b hb) hmpos
        (hjit b hb) hj hmJt (hconn b hb) (hfail b hb) (htrend b hb)
        ht1 ht2 (htrust b hb) hp1 hp2 (le_of_eq heq.symm),
      heq, div_self (ne_of_gt hmpos)]
    have h1 : (40 * (1 : ℚ) + 60) * ((p : ℚ) / 100) = ((p : ℤ) : ℚ) := by
      ring
    rw [h1, Int.floor_intCast]
  have hsc_lt : ∀ b ∈ filterAvailable bs,
      b.AvgLatency ≠ minAvgOf (filterAvailable bs) →
      b.RelativeHealthScore s (minAvgOf (filterAvailable bs)) mJt +
        histAdjust hist period s b < p := by
    intro b hb hbne
    obtain ⟨hdis, hhea⟩ := isAvailable_fields (havail b hb)
    have hltm : minAvgOf (filterAvailable bs) < b.AvgLatency :=
      lt_of_le_of_ne (minAvgOf_le _ b hb) (Ne.symm hbne)
    rw [hhist b hb, add_zero,
      relScore_shape s b _ mJt j τ p hdis hhea (hpos b hb) hmpos
        (hjit b hb) hj hmJt (hconn b hb) (hfail b hb) (htrend b hb)
        ht1 ht2 (htrust b hb) hp1 hp2 (le_of_lt hltm),
      Int.floor_lt]
    have hdiv : minAvgOf (filterAvailable bs) / b.AvgLatency < 1 :=
      (div_lt_one (hpos b hb)).mpr hltm
    have hpq1 : (0 : ℚ) < (p : ℚ) / 100 := by
      have hcast : (1 : ℚ) ≤ (p : ℚ) := by exact_mod_cast hp1
      linarith
    calc (40 * (minAvgOf (filterAvailable bs) / b.AvgLatency) + 60) *
          ((p : ℚ) / 100)
        < 100 * ((p : ℚ) / 100) := by
          apply mul_lt_mul_of_pos_right _ hpq1
          linarith
      _ = ((p : ℤ) : ℚ) := by ring
  have hall : ∀ b ∈ filterAvailable bs,
      b.RelativeHealthScore s (minAvgOf (filterAvailable bs)) mJt +
        histAdjust hist period s b ≤ p := by
    intro b hb
    by_cases heq : b.AvgLatency = minAvgOf (filterAvailable bs)
    · exact le_of_eq (hsc_eq b hb heq)
    · exact le_of_lt (hsc_lt b hb heq)
  have hex : ∃ b ∈ filterAvailable bs,
      b.RelativeHealthScore s (minAvgOf (filterAvailable bs)) mJt +
        histAdjust hist period s b = p := by
    obtain ⟨b, hb, heq⟩ := minAvgOf_attained _ hne
    exact ⟨b, hb, hsc_eq b hb heq⟩
  simp only [HealthScoreSelect, specMinLatencyChoice]
  rw [if_neg hne, minsFold_eq]
  simp only [hlat, hjfold]
  rw [if_neg (not_le.mpr hmpos)]
  rw [selectLoop_finds _ p _ none (-1) (by omega) hall hex]
  apply find_congr_on
  intro b hb
  rcases eq_or_ne b.AvgLatency (minAvgOf (filterAvailable bs)) with heq | hne2
  · simp [hsc_eq b hb heq, heq]
  · simp [ne_of_lt (hsc_lt b hb hne2), hne2]

/-- First-listed backend of the C2 counterexample: one 103 ms sample, one
player attached out of 8 slots, trust 50%. -/
def cexSelB : Backend :=
  { NewBackend "b103" 8 10 with
      latencyWindow := [103]
      currentConns := 1
      players := insert "p" ∅
      trustCoeff := 50 }

/-- Second-listed backend of the C2 counterexample: identical in every
factor but with a 100 ms sample — the minimum positive average latency. -/
def cexSelA : Backend :=
  { NewBackend "a100" 8 10 with
      latencyWindow := [100]
      currentConns := 1
      players := insert "q" ∅
      trustCoeff := 50 }

/-- **C2 counterexample.** Both backends agree on jitter (0), connection
load (1 of 8), failure count (0), trend (0) and trust (50%), neither has
historical data, and both average latencies are positive; yet the truncated
trust-scaled scores tie at 48 (floor of 48.167 for the 103 ms backend,
floor of 48.75 for the 100 ms one) and the strict-improvement loop keeps
the first-listed, higher-latency backend instead of the minimum-latency
one. -/
theorem healthscore_truncation_tie_cex :
    HealthScoreSelect (fun q => q) 0 (some emptyHistory) [cexSelB, cexSelA] 0
      = some cexSelB ∧
    cexSelB ≠ cexSelA ∧
    cexSelA.IsAvailable = true ∧
    0 < cexSelA.AvgLatency ∧
    cexSelA.AvgLatency < cexSelB.AvgLatency ∧
    cexSelB.Jitter (fun q => q) = cexSelA.Jitter (fun q => q) ∧
    cexSelB.currentConns = cexSelA.currentConns ∧
    cexSelB.MaxConnections = cexSelA.MaxConnections ∧
    cexSelB.failCount = cexSelA.failCount ∧
    cexSelB.Trend = cexSelA.Trend ∧
    cexSelB.trustCoeff = cexSelA.trustCoeff := by
  have hAvgB : cexSelB.AvgLatency = 103 := by
    norm_num [cexSelB, Backend.AvgLatency, NewBackend]
  have hAvgA : cexSelA.AvgLatency = 100 := by
    norm_num [cexSelA, Backend.AvgLatency, NewBackend]
  have hJitB : cexSelB.Jitter (fun q => q) = 0 := rfl
  have hJitA : cexSelA.Jitter (fun q => q) = 0 := rfl
  have hfilt : filterAvailable [cexSelB, cexSelA] = [cexSelB, cexSelA] := rfl
  have hTrB : cexSelB.Trend = 0 := rfl
  have hTrA : cexSelA.Trend = 0 := rfl
  have hscB : cexSelB.RelativeHealthScore (fun q => q) 100 1 = 48 := by
    simp only [Backend.RelativeHealthScore, hAvgB, hJitB, hTrB,
      show cexSelB.disabled = false from rfl,
      show cexSelB.healthy = true from rfl,
      show cexSelB.MaxConnections = 8 from rfl,
      show cexSelB.currentConns = 1 from rfl,
      show cexSelB.failCount = 0 from rfl,
      show cexSelB.trustCoeff = 50 from rfl]
    norm_num
  have hscA : cexSelA.RelativeHealthScore (fun q => q) 100 1 = 48 := by
    simp only [Backend.RelativeHealthScore, hAvgA, hJitA, hTrA,
      show cexSelA.disabled = false from rfl,
      show cexSelA.healthy = true from rfl,
      show cexSelA.MaxConnections = 8 from rfl,
      show cexSelA.currentConns = 1 from rfl,
      show cexSelA.failCount = 0 from rfl,
      show cexSelA.trustCoeff = 50 from rfl]
    norm_num
  refine ⟨?_, by decide, rfl, by rw [hAvgA]; norm_num,
    by rw [hAvgA, hAvgB]; norm_num, by rw [hJitB, hJitA], rfl, rfl, rfl,
    by rw [hTrB, hTrA], rfl⟩
  have hfold : ([cexSelB, cexSelA].foldl (minsStep (fun q => q)) (-1, -1))
      = ((100 : ℚ), (-1 : ℚ)) := by
    simp only [List.foldl_cons, List.foldl_nil, minsStep, hAvgB, hAvgA,
      hJitB, hJitA]
    norm_num
  simp only [HealthScoreSelect, hfilt]
  rw [if_neg (by simp), hfold]
  norm_num
  simp only [selectLoop, histAdjust_empty, hscB, hscA, add_zero]
  norm_num

/-- Witness backend with a single 5 ms sample. -/
def wSelA : Backend := { NewBackend "wa" 0 10 with latencyWindow := [5] }

/-- Witness backend with a single 7 ms sample. -/
def wSelB : Backend := { NewBackend "wb" 0 10 with latencyWindow := [7] }

/-- Witness for C2: with two unloaded, clean, fully trusted backends at 5 ms
and 7 ms and no history, the strategy picks the spec's minimum-latency
choice. -/
theorem healthscore_select_min_latency_witness :
    HealthScoreSelect (fun q => q) 0 (some emptyHistory) [wSelA, wSelB] 0 =
      specMinLatencyChoice [wSelA, wSelB] := by
  have hfilt : filterAvailable [wSelA, wSelB] = [wSelA, wSelB] := rfl
  have hmem : ∀ b : Backend, b ∈ filterAvailable [wSelA, wSelB] →
      b = wSelA ∨ b = wSelB := by
    intro b hb
    rw [hfilt] at hb
    simpa using hb
  refine healthscore_select_min_latency (fun q => q) 0 (some emptyHistory)
    [wSelA, wSelB] 0 0 0 100 (by rw [hfilt]; simp) ?_ ?_ le_rfl ?_ ?_ ?_
    (by norm_num) (by norm_num) ?_ (by norm_num) (by norm_num) ?_
  · intro b hb
    rcases hmem b hb with rfl | rfl <;>
      norm_num [wSelA, wSelB, Backend.AvgLatency, NewBackend]
  · intro b hb
    rcases hmem b hb with rfl | rfl <;> rfl
  · intro b hb
    rcases hmem b hb with rfl | rfl <;> rfl
  · intro b hb
    rcases hmem b hb with rfl | rfl <;> rfl
  · intro b hb
    rcases hmem b hb with rfl | rfl <;> rfl
  · intro b hb
    rcases hmem b hb with rfl | rfl <;> rfl
  · intro b hb
    exact histAdjust_empty 0 (fun q => q) b
